import Mathlib

/-!
# Verification of the cush shell's job-control core

A shallow embedding of the job-control and pipeline-execution engine of the
`cush` shell (`src/unnamed/part_000`): the job registry (`add_job`,
`delete_job`, `get_job_from_jid`, `job_with_jid`), the status monitor
(`handle_child_status`, `wait_for_job`), the pipeline spawner
(`iterate_over_pipeline`, modelled as a resource-accounting state machine),
and the job-control builtins (`jobs` via `print_all_jobs`/`print_job`,
`fg`, `bg`, `kill`).

Machine integers are modelled as `Int`/`Nat`; C pointers that may be NULL
are modelled as `Option`, and a dereference of a NULL pointer is modelled
as the `none`/crash outcome of the function containing it.
-/

namespace Cush

/-- Signal numbers (Linux x86-64 values, as used by the shell). -/
def SIGHUP : Int := 1
def SIGINT : Int := 2
def SIGQUIT : Int := 3
def SIGABRT : Int := 6
def SIGKILL : Int := 9
def SIGTERM : Int := 15
def SIGCONT : Int := 18
def SIGSTOP : Int := 19
def SIGTTIN : Int := 21
def SIGTTOU : Int := 22

/-- `enum job_status` from the source. -/
inductive JobStatus
  | FOREGROUND
  | BACKGROUND
  | STOPPED
  | NEEDSTERMINAL
  | TERMINATED
  | DONE
deriving DecidableEq, Repr

/-- `struct job`: `jid`, `status`, `num_processes_alive` (a C `int`, hence
`Int` here), `termination_code`, `child_pid_array` (one pid per pipeline
stage, fixed at spawn time), `saved_tty_state` (terminal attributes,
abstracted to an `Int`), `state_saved_previously`, and the owned pipeline's
command list (`pipe->commands`, each command its argv). -/
structure Job where
  jid : Nat
  status : JobStatus
  alive : Int
  termCode : Int
  members : List Int
  savedTty : Int
  stateSaved : Bool
  cmds : List (List String)
deriving DecidableEq, Repr

/-- The two globals the status monitor writes for the main loop:
`z_update_jid` and `error_update_code` (both C `int`s, `-1` = none). -/
structure MonitorState where
  zUpdateJid : Int
  errorUpdateCode : Int
deriving DecidableEq, Repr

/-- A decoded `waitpid` status: `WIFEXITED`, `WIFSIGNALED` (with
`WTERMSIG`), or `WIFSTOPPED` (with `WSTOPSIG`). -/
inductive ChildEvent
  | exited
  | signaled (sig : Int)
  | stopped (sig : Int)
deriving DecidableEq, Repr

/-- The per-job body of `handle_child_status` (source lines 404-444), acting
on the job the pid lookup found.  `curTty` is the terminal attribute state
that `termstate_save` would capture at this moment. -/
def handleStatus (curTty : Int) (j : Job) (g : MonitorState) :
    ChildEvent → Job × MonitorState
  | .exited =>
    -- WIFEXITED: decrement, and set DONE once the count drops below 1.
    let j1 := { j with alive := j.alive - 1 }
    (if j1.alive < 1 then { j1 with status := .DONE } else j1, g)
  | .signaled sig =>
    -- WIFSIGNALED: record the signal (if nonzero) in the job and in the
    -- global error_update_code, then decrement and set TERMINATED at zero.
    let jg1 : Job × MonitorState := if sig ≠ 0 then
        ({ j with termCode := sig }, { g with errorUpdateCode := sig })
      else (j, g)
    let j2 : Job := { jg1.1 with alive := jg1.1.alive - 1 }
    (if j2.alive < 1 then { j2 with status := .TERMINATED } else j2, jg1.2)
  | .stopped sig =>
    -- WIFSTOPPED: SIGTTOU/SIGTTIN mean a background process wants the
    -- terminal; any other stop saves the terminal state (foreground jobs
    -- only) and flags the pending ^Z notification, then sets STOPPED.
    if sig = SIGTTOU ∨ sig = SIGTTIN then
      ({ j with status := .NEEDSTERMINAL }, g)
    else
      let jg1 :=
        if j.status = .FOREGROUND then
          ({ j with savedTty := curTty, stateSaved := true },
           { g with zUpdateJid := (j.jid : Int) })
        else (j, g)
      ({ jg1.1 with status := .STOPPED }, jg1.2)

/-- A status is terminal (job eligible for removal) when it is DONE or
TERMINATED. -/
def isTerminalStatus : JobStatus → Bool
  | .DONE => true
  | .TERMINATED => true
  | _ => false

/-- A state change is terminal (the pid was reaped for good) when it is an
exit or a signal-caused death, not a stop. -/
def isTerminalEvent : ChildEvent → Bool
  | .exited => true
  | .signaled _ => true
  | .stopped _ => false

/-- Run the status monitor over a sequence of decoded events for one job
(the pid component only selects the job, which is fixed here). -/
def runJob (curTty : Int) :
    List (Int × ChildEvent) → Job → MonitorState → Job × MonitorState
  | [], j, g => (j, g)
  | (_, ev) :: rest, j, g =>
    runJob curTty rest (handleStatus curTty j g ev).1 (handleStatus curTty j g ev).2

/-- All successive job states while processing a trace, the initial one
included. -/
def jobStates (curTty : Int) :
    List (Int × ChildEvent) → Job → MonitorState → List Job
  | [], j, _ => [j]
  | (_, ev) :: rest, j, g =>
    j :: jobStates curTty rest (handleStatus curTty j g ev).1 (handleStatus curTty j g ev).2

/-- A complete well-formed event trace for a set of still-alive member pids:
every event concerns a pid not yet reaped, a terminal event (exit or signal
death) removes its pid, and at the end every member has been reaped. -/
def wfTrace : List Int → List (Int × ChildEvent) → Bool
  | alivePids, [] => alivePids.isEmpty
  | alivePids, (p, ev) :: rest =>
    alivePids.contains p &&
      (if isTerminalEvent ev then wfTrace (alivePids.erase p) rest
       else wfTrace alivePids rest)

lemma handleStatus_alive_exited (curTty : Int) (j : Job) (g : MonitorState) :
    (handleStatus curTty j g .exited).1.alive = j.alive - 1 := by
  simp only [handleStatus]
  split <;> rfl

lemma handleStatus_alive_signaled (curTty : Int) (j : Job) (g : MonitorState)
    (sig : Int) :
    (handleStatus curTty j g (.signaled sig)).1.alive = j.alive - 1 := by
  simp only [handleStatus]
  split <;> split <;> rfl

lemma handleStatus_alive_stopped (curTty : Int) (j : Job) (g : MonitorState)
    (sig : Int) :
    (handleStatus curTty j g (.stopped sig)).1.alive = j.alive := by
  simp only [handleStatus]
  split
  · rfl
  · split <;> rfl

lemma handleStatus_status_stopped (curTty : Int) (j : Job) (g : MonitorState)
    (sig : Int) :
    (handleStatus curTty j g (.stopped sig)).1.status = .NEEDSTERMINAL ∨
      (handleStatus curTty j g (.stopped sig)).1.status = .STOPPED := by
  simp only [handleStatus]
  split
  · exact Or.inl rfl
  · split <;> exact Or.inr rfl

lemma handleStatus_status_exited (curTty : Int) (j : Job) (g : MonitorState) :
    (handleStatus curTty j g .exited).1.status =
      if j.alive - 1 < 1 then .DONE else j.status := by
  by_cases h : j.alive - 1 < 1 <;> simp [handleStatus, h]

lemma handleStatus_status_signaled (curTty : Int) (j : Job) (g : MonitorState)
    (sig : Int) :
    (handleStatus curTty j g (.signaled sig)).1.status =
      if j.alive - 1 < 1 then .TERMINATED else j.status := by
  by_cases hsig : sig = 0 <;> by_cases h : j.alive - 1 < 1 <;>
    simp [handleStatus, hsig, h]

/-- Core invariant of the status monitor, proved along a well-formed trace:
with `alive` equal to the number of unreaped members and the status terminal
exactly when no member remains, every reachable state keeps `alive`
non-negative and equal to zero exactly when the status is terminal, and the
final state has `alive = 0` with a terminal status. -/
lemma runJob_invariant (curTty : Int) :
    ∀ (trace : List (Int × ChildEvent)) (alivePids : List Int) (j : Job)
      (g : MonitorState),
      wfTrace alivePids trace = true →
      alivePids.Nodup →
      j.alive = (alivePids.length : Int) →
      (isTerminalStatus j.status = true ↔ alivePids = []) →
      ((runJob curTty trace j g).1.alive = 0 ∧
        isTerminalStatus (runJob curTty trace j g).1.status = true) ∧
      (∀ s ∈ jobStates curTty trace j g,
        0 ≤ s.alive ∧ (s.alive = 0 ↔ isTerminalStatus s.status = true)) := by
  intro trace
  induction trace with
  | nil =>
    intro alivePids j g hwf hnd halive hiff
    simp only [wfTrace, List.isEmpty_iff] at hwf
    subst hwf
    simp only [runJob, jobStates, List.mem_singleton]
    simp only [List.length_nil, Nat.cast_zero] at halive
    refine ⟨⟨halive, hiff.mpr rfl⟩, ?_⟩
    rintro s rfl
    simp [halive, hiff.mpr rfl]
  | cons pe rest ih =>
    obtain ⟨p, ev⟩ := pe
    intro alivePids j g hwf hnd halive hiff
    simp only [wfTrace, Bool.and_eq_true] at hwf
    obtain ⟨hmemb, hwf⟩ := hwf
    have hmem : p ∈ alivePids := List.mem_of_elem_eq_true hmemb
    have hne : alivePids ≠ [] := by
      intro h; subst h; simp at hmem
    have hlen_pos : 0 < alivePids.length := List.length_pos.mpr hne
    have hstart : 0 ≤ j.alive ∧ (j.alive = 0 ↔ isTerminalStatus j.status = true) := by
      constructor
      · rw [halive]; positivity
      · rw [halive]
        constructor
        · intro h
          exfalso
          have : alivePids.length = 0 := by exact_mod_cast h
          omega
        · intro h
          exact absurd (hiff.mp h) hne
    -- the state after this event
    have hbody :
        (if isTerminalEvent ev then
            (handleStatus curTty j g ev).1.alive = ((alivePids.erase p).length : Int) ∧
              (isTerminalStatus (handleStatus curTty j g ev).1.status = true ↔
                alivePids.erase p = [])
          else
            (handleStatus curTty j g ev).1.alive = (alivePids.length : Int) ∧
              (isTerminalStatus (handleStatus curTty j g ev).1.status = true ↔
                alivePids = [])) := by
      have herase : (alivePids.erase p).length = alivePids.length - 1 :=
        List.length_erase_of_mem hmem
      cases ev with
      | exited =>
        rw [if_pos (show isTerminalEvent ChildEvent.exited = true from rfl)]
        have ha := handleStatus_alive_exited curTty j g
        have hst := handleStatus_status_exited curTty j g
        refine ⟨by rw [ha, halive, herase]; omega, ?_⟩
        rw [hst]
        by_cases hlt : j.alive - 1 < 1
        · rw [if_pos hlt]
          simp only [isTerminalStatus, true_iff]
          rw [halive] at hlt
          rw [← List.length_eq_zero]
          omega
        · rw [if_neg hlt]
          rw [halive] at hlt
          constructor
          · intro hterm
            exact absurd (hiff.mp hterm) hne
          · intro hnil
            rw [hnil] at herase
            simp only [List.length_nil] at herase
            omega
      | signaled sig =>
        rw [if_pos (show isTerminalEvent (ChildEvent.signaled sig) = true from rfl)]
        have ha := handleStatus_alive_signaled curTty j g sig
        have hst := handleStatus_status_signaled curTty j g sig
        refine ⟨by rw [ha, halive, herase]; omega, ?_⟩
        rw [hst]
        by_cases hlt : j.alive - 1 < 1
        · rw [if_pos hlt]
          simp only [isTerminalStatus, true_iff]
          rw [halive] at hlt
          rw [← List.length_eq_zero]
          omega
        · rw [if_neg hlt]
          rw [halive] at hlt
          constructor
          · intro hterm
            exact absurd (hiff.mp hterm) hne
          · intro hnil
            rw [hnil] at herase
            simp only [List.length_nil] at herase
            omega
      | stopped sig =>
        rw [if_neg (show ¬isTerminalEvent (ChildEvent.stopped sig) = true from
          fun h => Bool.noConfusion h)]
        have ha := handleStatus_alive_stopped curTty j g sig
        refine ⟨by rw [ha, halive], ?_⟩
        have hst := handleStatus_status_stopped curTty j g sig
        constructor
        · intro hterm
          rcases hst with h | h <;> rw [h] at hterm <;>
            simp [isTerminalStatus] at hterm
        · intro hnil
          exact absurd hnil hne
    -- put the pieces together
    by_cases hterm : isTerminalEvent ev = true
    · rw [if_pos hterm] at hbody hwf
      have hrec := ih (alivePids.erase p) (handleStatus curTty j g ev).1
        (handleStatus curTty j g ev).2 hwf (hnd.erase p) hbody.1 hbody.2
      refine ⟨hrec.1, ?_⟩
      intro s hs
      simp only [jobStates, List.mem_cons] at hs
      rcases hs with rfl | hs
      · exact ⟨hstart.1, hstart.2⟩
      · exact hrec.2 s hs
    · rw [if_neg hterm] at hbody hwf
      have hrec := ih alivePids (handleStatus curTty j g ev).1
        (handleStatus curTty j g ev).2 hwf hnd hbody.1 hbody.2
      refine ⟨hrec.1, ?_⟩
      intro s hs
      simp only [jobStates, List.mem_cons] at hs
      rcases hs with rfl | hs
      · exact ⟨hstart.1, hstart.2⟩
      · exact hrec.2 s hs
/-- **C1**: after the Status Monitor has processed all state-change events
for a job's member processes (a complete well-formed trace), the job's alive
count equals zero if and only if its status is DONE or TERMINATED — a normal
exit decrements the count and sets DONE at zero, a signal-caused death
records the signal, decrements, and sets TERMINATED at zero — and the count
never goes negative at any intermediate state; moreover the zero-iff-terminal
correspondence holds at every intermediate state as well. -/
theorem alive_count_zero_iff_terminal (curTty : Int) (members : List Int)
    (trace : List (Int × ChildEvent)) (j : Job) (g : MonitorState)
    (hwf : wfTrace members trace = true)
    (hnd : members.Nodup)
    (hne : members ≠ [])
    (halive : j.alive = (members.length : Int))
    (hterm : isTerminalStatus j.status = false) :
    ((runJob curTty trace j g).1.alive = 0 ∧
      isTerminalStatus (runJob curTty trace j g).1.status = true) ∧
    (∀ s ∈ jobStates curTty trace j g,
      0 ≤ s.alive ∧ (s.alive = 0 ↔ isTerminalStatus s.status = true)) := by
  apply runJob_invariant curTty trace members j g hwf hnd halive
  constructor
  · intro h
    rw [h] at hterm
    cases hterm
  · intro h
    exact absurd h hne

/-- Witness for C1: a two-member job whose first member is stopped, then
both members are reaped (one exit, one SIGKILL death). -/
theorem alive_count_zero_iff_terminal_witness :
    ((runJob 0 [((3 : Int), ChildEvent.stopped 19), (4, ChildEvent.exited),
        (3, ChildEvent.signaled 9)]
        { jid := 1, status := .BACKGROUND, alive := 2, termCode := -1,
          members := [3, 4], savedTty := 0, stateSaved := false, cmds := [] }
        { zUpdateJid := -1, errorUpdateCode := -1 }).1.alive = 0 ∧
      isTerminalStatus (runJob 0 [((3 : Int), ChildEvent.stopped 19),
        (4, ChildEvent.exited), (3, ChildEvent.signaled 9)]
        { jid := 1, status := .BACKGROUND, alive := 2, termCode := -1,
          members := [3, 4], savedTty := 0, stateSaved := false, cmds := [] }
        { zUpdateJid := -1, errorUpdateCode := -1 }).1.status = true) ∧
    (∀ s ∈ jobStates 0 [((3 : Int), ChildEvent.stopped 19),
        (4, ChildEvent.exited), (3, ChildEvent.signaled 9)]
        { jid := 1, status := .BACKGROUND, alive := 2, termCode := -1,
          members := [3, 4], savedTty := 0, stateSaved := false, cmds := [] }
        { zUpdateJid := -1, errorUpdateCode := -1 },
      0 ≤ s.alive ∧ (s.alive = 0 ↔ isTerminalStatus s.status = true)) :=
  alive_count_zero_iff_terminal 0 [3, 4]
    [((3 : Int), ChildEvent.stopped 19), (4, ChildEvent.exited),
      (3, ChildEvent.signaled 9)]
    { jid := 1, status := .BACKGROUND, alive := 2, termCode := -1,
      members := [3, 4], savedTty := 0, stateSaved := false, cmds := [] }
    { zUpdateJid := -1, errorUpdateCode := -1 }
    (by decide) (by decide) (by decide) (by decide) (by decide)

/-- **C5**: for a stop event observed for a member process, a stop by one of
the two terminal-access-denial signals (SIGTTOU/SIGTTIN) sets the job's
status to NEEDSTERMINAL regardless of its prior status; any other stop
captures the current terminal attributes into the job's saved terminal
state, marks it valid, and sets the pending-notification flag (z_update_jid)
exactly when the job was FOREGROUND, and sets the status to STOPPED in all
cases; the alive count and termination code are untouched. -/
theorem stop_event_transitions (curTty : Int) (j : Job) (g : MonitorState)
    (sig : Int) :
    ((handleStatus curTty j g (.stopped sig)).1.status =
      if sig = SIGTTOU ∨ sig = SIGTTIN then JobStatus.NEEDSTERMINAL
      else JobStatus.STOPPED) ∧
    ((handleStatus curTty j g (.stopped sig)).1.stateSaved =
      if ¬(sig = SIGTTOU ∨ sig = SIGTTIN) ∧ j.status = .FOREGROUND then true
      else j.stateSaved) ∧
    ((handleStatus curTty j g (.stopped sig)).1.savedTty =
      if ¬(sig = SIGTTOU ∨ sig = SIGTTIN) ∧ j.status = .FOREGROUND then curTty
      else j.savedTty) ∧
    ((handleStatus curTty j g (.stopped sig)).2.zUpdateJid =
      if ¬(sig = SIGTTOU ∨ sig = SIGTTIN) ∧ j.status = .FOREGROUND then
        (j.jid : Int)
      else g.zUpdateJid) ∧
    (handleStatus curTty j g (.stopped sig)).1.alive = j.alive ∧
    (handleStatus curTty j g (.stopped sig)).1.termCode = j.termCode ∧
    (handleStatus curTty j g (.stopped sig)).1.jid = j.jid ∧
    (handleStatus curTty j g (.stopped sig)).1.members = j.members ∧
    (handleStatus curTty j g (.stopped sig)).2.errorUpdateCode =
      g.errorUpdateCode := by
  by_cases htty : sig = SIGTTOU ∨ sig = SIGTTIN
  · simp [handleStatus, htty]
  · by_cases hfg : j.status = .FOREGROUND <;> simp [handleStatus, htty, hfg]

/-- The pid-to-job lookup of `handle_child_status` (source lines 386-402):
scan the job list, comparing `pid` against each job's `child_pid_array`
entries, and stop at the first job containing it. -/
def findJobByPid (pid : Int) (jobs : List Job) : Option Job :=
  jobs.find? (fun j => j.members.contains pid)

/-- Full `handle_child_status` (source lines 379-445): locate the job owning
`pid` in the registry and apply the per-job transition to it in place.  The
C code dereferences `found_job` unconditionally; when no job owns `pid` the
lookup leaves it NULL and the dereference is undefined behaviour, modelled
here as `none`. -/
def handleChildStatusR (curTty pid : Int) (ev : ChildEvent) :
    List Job → MonitorState → Option (List Job × MonitorState)
  | [], _ => none
  | j :: rest, g =>
    if j.members.contains pid then
      some ((handleStatus curTty j g ev).1 :: rest, (handleStatus curTty j g ev).2)
    else
      match handleChildStatusR curTty pid ev rest g with
      | none => none
      | some (rest', g') => some (j :: rest', g')

/-- **C10**: `handle_child_status` completes safely (finds a job to update)
exactly when the reaped pid is recorded in some registered job's member
array; for a pid belonging to no registered job the unconditional
dereference of the lookup result is a null-pointer dereference (`none`), so
that branch must be unreachable under the precondition that only member pids
of registered jobs are ever reaped. -/
theorem handle_child_status_deref_safe_iff_member (curTty pid : Int)
    (ev : ChildEvent) (jobs : List Job) (g : MonitorState) :
    (handleChildStatusR curTty pid ev jobs g).isSome ↔
      ∃ j ∈ jobs, pid ∈ j.members := by
  induction jobs with
  | nil => simp [handleChildStatusR]
  | cons j rest ih =>
    simp only [handleChildStatusR]
    by_cases h : j.members.contains pid
    · have hm : pid ∈ j.members := List.mem_of_elem_eq_true h
      simp only [h, if_true, Option.isSome_some, true_iff]
      exact ⟨j, List.mem_cons_self j rest, hm⟩
    · have hm : pid ∉ j.members := by
        intro hc
        exact h (List.elem_eq_true_of_mem hc)
      rw [if_neg h]
      constructor
      · intro hsome
        rcases hrec : handleChildStatusR curTty pid ev rest g with _ | pr
        · rw [hrec] at hsome
          simp at hsome
        · have : ∃ k ∈ rest, pid ∈ k.members := by
            rw [← ih, hrec]
            simp
          obtain ⟨k, hk, hkm⟩ := this
          exact ⟨k, List.mem_cons_of_mem j hk, hkm⟩
      · rintro ⟨k, hk, hkm⟩
        rcases List.mem_cons.mp hk with rfl | hk'
        · exact absurd hkm hm
        · have : (handleChildStatusR curTty pid ev rest g).isSome :=
            ih.mpr ⟨k, hk', hkm⟩
          rcases hrec : handleChildStatusR curTty pid ev rest g with _ | ⟨rest', g'⟩
          · rw [hrec] at this
            simp at this
          · simp

/-- `job_with_jid` (source lines 260-274): scan the job list for the first
job with the given id. -/
def jobWithJid (jobs : List Job) (t : Nat) : Option Job :=
  jobs.find? (fun j => j.jid == t)

/-- `job_with_jid` as called from the builtins, on the `atoi` result. -/
def jobWithJidI (jobs : List Job) (n : Int) : Option Job :=
  jobs.find? (fun j => (j.jid : Int) == n)

/-- `list_remove` of the job with the given id (the node `wait_for_job` and
`print_all_jobs` unlink). -/
def removeJob : List Job → Nat → List Job
  | [], _ => []
  | j :: rest, t => if j.jid = t then rest else j :: removeJob rest t

/-- In-place update of one job's status (`found_job->status = ...`). -/
def setStatus : List Job → Nat → JobStatus → List Job
  | [], _, _ => []
  | j :: rest, t, st =>
    if j.jid = t then { j with status := st } :: rest
    else j :: setStatus rest t st

/-- The tail of `wait_for_job` (source lines 353-377): once the loop exits,
remove and delete the job when no process remains alive. -/
def waitExit (jobs : List Job) (t : Nat) (g : MonitorState) (j : Job) :
    List Job × MonitorState :=
  if j.alive < 1 then (removeJob jobs t, g) else (jobs, g)

/-- `wait_for_job` (source lines 328-377): while the target job is
FOREGROUND with processes alive, block in `waitpid` (take the next event of
the trace; an empty trace means `waitpid` would fail, which the shell treats
as fatal, modelled `none`) and fold it into `handle_child_status` (whose
null dereference on an unknown pid is also `none`); on exit, delete the job
if fully reaped. -/
def waitForJob (curTty : Int) (t : Nat) :
    List (Int × ChildEvent) → List Job → MonitorState →
      Option (List Job × MonitorState)
  | [], jobs, g =>
    match jobWithJid jobs t with
    | none => none
    | some j =>
      if j.status = .FOREGROUND ∧ 0 < j.alive then none
      else some (waitExit jobs t g j)
  | (pid, ev) :: rest, jobs, g =>
    match jobWithJid jobs t with
    | none => none
    | some j =>
      if j.status = .FOREGROUND ∧ 0 < j.alive then
        match handleChildStatusR curTty pid ev jobs g with
        | none => none
        | some (jobs', g') => waitForJob curTty t rest jobs' g'
      else some (waitExit jobs t g j)

/-- Every registry state observable while `wait_for_job` runs, the entry
and exit states included. -/
def waitStates (curTty : Int) (t : Nat) :
    List (Int × ChildEvent) → List Job → MonitorState → List (List Job)
  | [], jobs, g =>
    match jobWithJid jobs t with
    | none => [jobs]
    | some j =>
      if j.status = .FOREGROUND ∧ 0 < j.alive then [jobs]
      else [jobs, (waitExit jobs t g j).1]
  | (pid, ev) :: rest, jobs, g =>
    match jobWithJid jobs t with
    | none => [jobs]
    | some j =>
      if j.status = .FOREGROUND ∧ 0 < j.alive then
        match handleChildStatusR curTty pid ev jobs g with
        | none => [jobs]
        | some (jobs', g') => jobs :: waitStates curTty t rest jobs' g'
      else [jobs, (waitExit jobs t g j).1]

/-- Number of registered jobs whose status is FOREGROUND. -/
def fgCount (jobs : List Job) : Nat :=
  (jobs.filter (fun j => j.status == JobStatus.FOREGROUND)).length

/-- Every FOREGROUND job in the registry carries the given id. -/
def onlyFg (jobs : List Job) (t : Nat) : Prop :=
  ∀ j ∈ jobs, j.status = .FOREGROUND → j.jid = t

lemma fgCount_cons (j : Job) (rest : List Job) :
    fgCount (j :: rest) =
      (if j.status = .FOREGROUND then 1 else 0) + fgCount rest := by
  by_cases h : j.status = .FOREGROUND <;>
    simp [fgCount, List.filter_cons, h, Nat.add_comm]

lemma fgCount_append (a b : List Job) :
    fgCount (a ++ b) = fgCount a + fgCount b := by
  simp [fgCount, List.filter_append]

lemma fgCount_eq_zero_iff (jobs : List Job) :
    fgCount jobs = 0 ↔ ∀ j ∈ jobs, j.status ≠ .FOREGROUND := by
  induction jobs with
  | nil => simp [fgCount]
  | cons j rest ih =>
    rw [fgCount_cons]
    by_cases h : j.status = .FOREGROUND <;> simp [h, ih]

lemma handleStatus_jid (curTty : Int) (j : Job) (g : MonitorState)
    (ev : ChildEvent) : (handleStatus curTty j g ev).1.jid = j.jid := by
  cases ev with
  | exited =>
    simp only [handleStatus]
    split <;> rfl
  | signaled s =>
    simp only [handleStatus]
    split <;> split <;> rfl
  | stopped s =>
    simp only [handleStatus]
    split
    · rfl
    · split <;> rfl

lemma handleStatus_fg (curTty : Int) (j : Job) (g : MonitorState)
    (ev : ChildEvent) :
    (handleStatus curTty j g ev).1.status = .FOREGROUND →
      j.status = .FOREGROUND := by
  cases ev with
  | exited =>
    rw [handleStatus_status_exited]
    split
    · intro h
      exact absurd h (by decide)
    · exact id
  | signaled s =>
    rw [handleStatus_status_signaled]
    split
    · intro h
      exact absurd h (by decide)
    · exact id
  | stopped s =>
    rcases handleStatus_status_stopped curTty j g s with h | h <;> rw [h] <;>
      intro hh <;> exact absurd hh (by decide)

lemma handleChildStatusR_map_jid (curTty pid : Int) (ev : ChildEvent) :
    ∀ (jobs : List Job) (g : MonitorState) (jobs' : List Job)
      (g' : MonitorState),
      handleChildStatusR curTty pid ev jobs g = some (jobs', g') →
      jobs'.map Job.jid = jobs.map Job.jid := by
  intro jobs
  induction jobs with
  | nil =>
    intro g jobs' g' h
    simp [handleChildStatusR] at h
  | cons j rest ih =>
    intro g jobs' g' h
    simp only [handleChildStatusR] at h
    by_cases hc : j.members.contains pid
    · rw [if_pos hc] at h
      simp only [Option.some.injEq, Prod.mk.injEq] at h
      obtain ⟨h1, _⟩ := h
      subst h1
      simp [handleStatus_jid]
    · rw [if_neg hc] at h
      rcases hrec : handleChildStatusR curTty pid ev rest g with _ | ⟨rest', g2⟩ <;>
        rw [hrec] at h
      · simp at h
      · simp only [Option.some.injEq, Prod.mk.injEq] at h
        obtain ⟨h1, _⟩ := h
        subst h1
        simp only [List.map_cons]
        rw [ih g rest' g2 hrec]

lemma handleChildStatusR_onlyFg (curTty pid : Int) (ev : ChildEvent)
    (t : Nat) :
    ∀ (jobs : List Job) (g : MonitorState) (jobs' : List Job)
      (g' : MonitorState),
      handleChildStatusR curTty pid ev jobs g = some (jobs', g') →
      onlyFg jobs t → onlyFg jobs' t := by
  intro jobs
  induction jobs with
  | nil =>
    intro g jobs' g' h
    simp [handleChildStatusR] at h
  | cons j rest ih =>
    intro g jobs' g' h hfg
    simp only [handleChildStatusR] at h
    by_cases hc : j.members.contains pid
    · rw [if_pos hc] at h
      simp only [Option.some.injEq, Prod.mk.injEq] at h
      obtain ⟨h1, _⟩ := h
      subst h1
      intro k hk hkfg
      rcases List.mem_cons.mp hk with rfl | hk'
      · rw [handleStatus_jid]
        exact hfg j (List.mem_cons_self j rest)
          (handleStatus_fg curTty j g ev hkfg)
      · exact hfg k (List.mem_cons_of_mem j hk') hkfg
    · rw [if_neg hc] at h
      rcases hrec : handleChildStatusR curTty pid ev rest g with _ | ⟨rest', g2⟩ <;>
        rw [hrec] at h
      · simp at h
      · simp only [Option.some.injEq, Prod.mk.injEq] at h
        obtain ⟨h1, _⟩ := h
        subst h1
        have hrest : onlyFg rest' t :=
          ih g rest' g2 hrec
            (fun k hk => hfg k (List.mem_cons_of_mem j hk))
        intro k hk hkfg
        rcases List.mem_cons.mp hk with rfl | hk'
        · exact hfg k (List.mem_cons_self k rest) hkfg
        · exact hrest k hk' hkfg

lemma handleChildStatusR_fgCount (curTty pid : Int) (ev : ChildEvent) :
    ∀ (jobs : List Job) (g : MonitorState) (jobs' : List Job)
      (g' : MonitorState),
      handleChildStatusR curTty pid ev jobs g = some (jobs', g') →
      fgCount jobs' ≤ fgCount jobs := by
  intro jobs
  induction jobs with
  | nil =>
    intro g jobs' g' h
    simp [handleChildStatusR] at h
  | cons j rest ih =>
    intro g jobs' g' h
    simp only [handleChildStatusR] at h
    by_cases hc : j.members.contains pid
    · rw [if_pos hc] at h
      simp only [Option.some.injEq, Prod.mk.injEq] at h
      obtain ⟨h1, _⟩ := h
      subst h1
      rw [fgCount_cons, fgCount_cons]
      have hmono : (if (handleStatus curTty j g ev).1.status = .FOREGROUND
          then 1 else 0) ≤ (if j.status = .FOREGROUND then 1 else 0) := by
        by_cases hj' : (handleStatus curTty j g ev).1.status = .FOREGROUND
        · rw [if_pos hj', if_pos (handleStatus_fg curTty j g ev hj')]
        · rw [if_neg hj']
          split <;> omega
      omega
    · rw [if_neg hc] at h
      rcases hrec : handleChildStatusR curTty pid ev rest g with _ | ⟨rest', g2⟩ <;>
        rw [hrec] at h
      · simp at h
      · simp only [Option.some.injEq, Prod.mk.injEq] at h
        obtain ⟨h1, _⟩ := h
        subst h1
        rw [fgCount_cons, fgCount_cons]
        have := ih g rest' g2 hrec
        omega

lemma fgCount_le_one_of_onlyFg (t : Nat) :
    ∀ (jobs : List Job), (jobs.map Job.jid).Nodup → onlyFg jobs t →
      fgCount jobs ≤ 1 := by
  intro jobs
  induction jobs with
  | nil =>
    intro _ _
    simp [fgCount]
  | cons j rest ih =>
    intro hnd hfg
    simp only [List.map_cons, List.nodup_cons] at hnd
    obtain ⟨hjid, hndr⟩ := hnd
    rw [fgCount_cons]
    by_cases h : j.status = .FOREGROUND
    · rw [if_pos h]
      have ht : j.jid = t := hfg j (List.mem_cons_self j rest) h
      have hz : fgCount rest = 0 := by
        rw [fgCount_eq_zero_iff]
        intro k hk hkfg
        have hkt : k.jid = t := hfg k (List.mem_cons_of_mem j hk) hkfg
        have hmm : k.jid ∈ rest.map Job.jid := List.mem_map_of_mem Job.jid hk
        rw [hkt, ← ht] at hmm
        exact hjid hmm
      omega
    · rw [if_neg h]
      have := ih hndr (fun k hk => hfg k (List.mem_cons_of_mem j hk))
      omega

lemma removeJob_fgCount (t : Nat) :
    ∀ (jobs : List Job), (jobs.map Job.jid).Nodup → onlyFg jobs t →
      fgCount (removeJob jobs t) = 0 := by
  intro jobs
  induction jobs with
  | nil =>
    intro _ _
    simp [removeJob, fgCount]
  | cons j rest ih =>
    intro hnd hfg
    simp only [List.map_cons, List.nodup_cons] at hnd
    obtain ⟨hjid, hndr⟩ := hnd
    simp only [removeJob]
    by_cases h : j.jid = t
    · rw [if_pos h]
      rw [fgCount_eq_zero_iff]
      intro k hk hkfg
      have hkt : k.jid = t := hfg k (List.mem_cons_of_mem j hk) hkfg
      have hmm : k.jid ∈ rest.map Job.jid := List.mem_map_of_mem Job.jid hk
      rw [hkt, ← h] at hmm
      exact hjid hmm
    · rw [if_neg h]
      rw [fgCount_cons]
      have hjfg : ¬ j.status = .FOREGROUND := by
        intro hj
        exact h (hfg j (List.mem_cons_self j rest) hj)
      rw [if_neg hjfg]
      have := ih hndr (fun k hk => hfg k (List.mem_cons_of_mem j hk))
      omega

lemma jobWithJid_spec (jobs : List Job) (t : Nat) (j : Job) :
    jobWithJid jobs t = some j → j ∈ jobs ∧ j.jid = t := by
  intro h
  refine ⟨List.mem_of_find?_eq_some h, ?_⟩
  have := List.find?_some h
  simpa using this

lemma fgCount_zero_of_lookup_not_fg (jobs : List Job) (t : Nat) (j : Job)
    (hnd : (jobs.map Job.jid).Nodup) (hfg : onlyFg jobs t)
    (hlk : jobWithJid jobs t = some j) (hj : ¬ j.status = .FOREGROUND) :
    fgCount jobs = 0 := by
  obtain ⟨hmem, hjid⟩ := jobWithJid_spec jobs t j hlk
  rw [fgCount_eq_zero_iff]
  intro k hk hkfg
  have hkt : k.jid = t := hfg k hk hkfg
  have : k = j := List.inj_on_of_nodup_map hnd hk hmem (by rw [hkt, hjid])
  exact hj (this ▸ hkfg)

/-- While `wait_for_job` runs on a registry whose FOREGROUND jobs all carry
the target id (ids pairwise distinct), every observable registry state has
at most one FOREGROUND job, and when the wait loop returns normally no
FOREGROUND job remains (the target is deleted if fully reaped, or has left
the FOREGROUND status). -/
lemma waitForJob_foreground (curTty : Int) (t : Nat) :
    ∀ (events : List (Int × ChildEvent)) (jobs : List Job) (g : MonitorState),
      (jobs.map Job.jid).Nodup → onlyFg jobs t →
      (∀ s ∈ waitStates curTty t events jobs g, fgCount s ≤ 1) ∧
      (∀ res g', waitForJob curTty t events jobs g = some (res, g') →
        fgCount res = 0) := by
  intro events
  induction events with
  | nil =>
    intro jobs g hnd hfg
    constructor
    · intro s hs
      simp only [waitStates] at hs
      rcases hlk : jobWithJid jobs t with _ | j <;> simp only [hlk] at hs
      · simp only [List.mem_singleton] at hs
        rw [hs]
        exact fgCount_le_one_of_onlyFg t jobs hnd hfg
      · by_cases hcond : j.status = .FOREGROUND ∧ 0 < j.alive
        · rw [if_pos hcond] at hs
          simp only [List.mem_singleton] at hs
          rw [hs]
          exact fgCount_le_one_of_onlyFg t jobs hnd hfg
        · rw [if_neg hcond] at hs
          simp only [waitExit, List.mem_cons, List.mem_singleton,
            List.not_mem_nil, or_false] at hs
          rcases hs with hs | hs
          · rw [hs]
            exact fgCount_le_one_of_onlyFg t jobs hnd hfg
          · by_cases hal : j.alive < 1
            · rw [if_pos hal] at hs
              rw [hs, removeJob_fgCount t jobs hnd hfg]
              omega
            · rw [if_neg hal] at hs
              rw [hs]
              exact fgCount_le_one_of_onlyFg t jobs hnd hfg
    · intro res g' hres
      simp only [waitForJob] at hres
      rcases hlk : jobWithJid jobs t with _ | j <;> simp only [hlk] at hres
      · simp at hres
      · by_cases hcond : j.status = .FOREGROUND ∧ 0 < j.alive
        · rw [if_pos hcond] at hres
          simp at hres
        · rw [if_neg hcond] at hres
          simp only [waitExit] at hres
          by_cases hal : j.alive < 1
          · rw [if_pos hal] at hres
            simp only [Option.some.injEq, Prod.mk.injEq] at hres
            obtain ⟨h1, _⟩ := hres
            rw [← h1]
            exact removeJob_fgCount t jobs hnd hfg
          · rw [if_neg hal] at hres
            simp only [Option.some.injEq, Prod.mk.injEq] at hres
            obtain ⟨h1, _⟩ := hres
            rw [← h1]
            have hj : ¬ j.status = .FOREGROUND := by
              intro hfgj
              exact hcond ⟨hfgj, by omega⟩
            exact fgCount_zero_of_lookup_not_fg jobs t j hnd hfg hlk hj
  | cons pe rest ih =>
    obtain ⟨pid, ev⟩ := pe
    intro jobs g hnd hfg
    constructor
    · intro s hs
      simp only [waitStates] at hs
      rcases hlk : jobWithJid jobs t with _ | j <;> simp only [hlk] at hs
      · simp only [List.mem_singleton] at hs
        rw [hs]
        exact fgCount_le_one_of_onlyFg t jobs hnd hfg
      · by_cases hcond : j.status = .FOREGROUND ∧ 0 < j.alive
        · rw [if_pos hcond] at hs
          rcases hrec : handleChildStatusR curTty pid ev jobs g with _ | ⟨jobs', g2⟩ <;>
            simp only [hrec] at hs
          · simp only [List.mem_singleton] at hs
            rw [hs]
            exact fgCount_le_one_of_onlyFg t jobs hnd hfg
          · simp only [List.mem_cons] at hs
            rcases hs with hs | hs
            · rw [hs]
              exact fgCount_le_one_of_onlyFg t jobs hnd hfg
            · have hnd' : (jobs'.map Job.jid).Nodup := by
                rw [handleChildStatusR_map_jid curTty pid ev jobs g jobs' g2 hrec]
                exact hnd
              have hfg' : onlyFg jobs' t :=
                handleChildStatusR_onlyFg curTty pid ev t jobs g jobs' g2 hrec hfg
              exact (ih jobs' g2 hnd' hfg').1 s hs
        · rw [if_neg hcond] at hs
          simp only [waitExit, List.mem_cons, List.mem_singleton,
            List.not_mem_nil, or_false] at hs
          rcases hs with hs | hs
          · rw [hs]
            exact fgCount_le_one_of_onlyFg t jobs hnd hfg
          · by_cases hal : j.alive < 1
            · rw [if_pos hal] at hs
              rw [hs, removeJob_fgCount t jobs hnd hfg]
              omega
            · rw [if_neg hal] at hs
              rw [hs]
              exact fgCount_le_one_of_onlyFg t jobs hnd hfg
    · intro res g' hres
      simp only [waitForJob] at hres
      rcases hlk : jobWithJid jobs t with _ | j <;> simp only [hlk] at hres
      · simp at hres
      · by_cases hcond : j.status = .FOREGROUND ∧ 0 < j.alive
        · rw [if_pos hcond] at hres
          rcases hrec : handleChildStatusR curTty pid ev jobs g with _ | ⟨jobs', g2⟩ <;>
            simp only [hrec] at hres
          · simp at hres
          · have hnd' : (jobs'.map Job.jid).Nodup := by
              rw [handleChildStatusR_map_jid curTty pid ev jobs g jobs' g2 hrec]
              exact hnd
            have hfg' : onlyFg jobs' t :=
              handleChildStatusR_onlyFg curTty pid ev t jobs g jobs' g2 hrec hfg
            exact (ih jobs' g2 hnd' hfg').2 res g' hres
        · rw [if_neg hcond] at hres
          simp only [waitExit] at hres
          by_cases hal : j.alive < 1
          · rw [if_pos hal] at hres
            simp only [Option.some.injEq, Prod.mk.injEq] at hres
            obtain ⟨h1, _⟩ := hres
            rw [← h1]
            exact removeJob_fgCount t jobs hnd hfg
          · rw [if_neg hal] at hres
            simp only [Option.some.injEq, Prod.mk.injEq] at hres
            obtain ⟨h1, _⟩ := hres
            rw [← h1]
            have hj : ¬ j.status = .FOREGROUND := by
              intro hfgj
              exact hcond ⟨hfgj, by omega⟩
            exact fgCount_zero_of_lookup_not_fg jobs t j hnd hfg hlk hj

/-- The foreground branch of `iterate_over_pipeline` after a successful
spawn (source lines 642-659): `add_job` appends the new job to the job
list, its status is set FOREGROUND, and the shell blocks in `wait_for_job`
until the job leaves the foreground. -/
def spawnForeground (curTty : Int) (j : Job)
    (events : List (Int × ChildEvent)) (jobs : List Job) (g : MonitorState) :
    Option (List Job × MonitorState) :=
  waitForJob curTty j.jid events
    (jobs ++ [{ j with status := .FOREGROUND }]) g

/-- All registry states observable during `spawnForeground`. -/
def spawnForegroundStates (curTty : Int) (j : Job)
    (events : List (Int × ChildEvent)) (jobs : List Job) (g : MonitorState) :
    List (List Job) :=
  waitStates curTty j.jid events
    (jobs ++ [{ j with status := .FOREGROUND }]) g

/-- The `fg` builtin (source lines 682-714): look up the job (a missing job
is reported and the command is a no-op); hand the terminal over; if the job
was STOPPED or NEEDSTERMINAL send SIGCONT to its group, and when that
`killpg` fails (`killpgOk = false`) return without setting the status;
otherwise set the status FOREGROUND and block in `wait_for_job`. -/
def fgCmd (curTty : Int) (killpgOk : Bool) (arg : Int)
    (events : List (Int × ChildEvent)) (jobs : List Job) (g : MonitorState) :
    Option (List Job × MonitorState) :=
  match jobWithJidI jobs arg with
  | none => some (jobs, g)
  | some j =>
    if (j.status = .STOPPED ∨ j.status = .NEEDSTERMINAL) ∧ killpgOk = false
    then some (jobs, g)
    else waitForJob curTty j.jid events (setStatus jobs j.jid .FOREGROUND) g

/-- All registry states observable during the `fg` builtin. -/
def fgCmdStates (curTty : Int) (killpgOk : Bool) (arg : Int)
    (events : List (Int × ChildEvent)) (jobs : List Job) (g : MonitorState) :
    List (List Job) :=
  match jobWithJidI jobs arg with
  | none => [jobs]
  | some j =>
    if (j.status = .STOPPED ∨ j.status = .NEEDSTERMINAL) ∧ killpgOk = false
    then [jobs]
    else jobs ::
      waitStates curTty j.jid events (setStatus jobs j.jid .FOREGROUND) g

lemma setStatus_map_jid (t : Nat) (st : JobStatus) :
    ∀ jobs : List Job, (setStatus jobs t st).map Job.jid = jobs.map Job.jid := by
  intro jobs
  induction jobs with
  | nil => rfl
  | cons j rest ih =>
    simp only [setStatus]
    by_cases h : j.jid = t <;> simp [h, ih]

lemma onlyFg_setStatus (t : Nat) :
    ∀ jobs : List Job, fgCount jobs = 0 →
      onlyFg (setStatus jobs t .FOREGROUND) t := by
  intro jobs
  induction jobs with
  | nil =>
    intro _ k hk
    simp [setStatus] at hk
  | cons j rest ih =>
    intro hz k hk hkfg
    rw [fgCount_cons] at hz
    have hjnot : ¬ j.status = .FOREGROUND := by
      intro h
      rw [if_pos h] at hz
      omega
    rw [if_neg hjnot] at hz
    rw [Nat.zero_add] at hz
    simp only [setStatus] at hk
    by_cases h : j.jid = t
    · rw [if_pos h] at hk
      rcases List.mem_cons.mp hk with rfl | hk'
      · exact h
      · exact absurd hkfg ((fgCount_eq_zero_iff rest).mp hz k hk')
    · rw [if_neg h] at hk
      rcases List.mem_cons.mp hk with rfl | hk'
      · exact absurd hkfg hjnot
      · exact ih hz k hk' hkfg

lemma onlyFg_append_fresh (jobs : List Job) (j : Job)
    (hz : fgCount jobs = 0) :
    onlyFg (jobs ++ [{ j with status := .FOREGROUND }]) j.jid := by
  intro k hk hkfg
  rcases List.mem_append.mp hk with hk' | hk'
  · exact absurd hkfg ((fgCount_eq_zero_iff jobs).mp hz k hk')
  · simp only [List.mem_singleton] at hk'
    subst hk'
    rfl

/-- **C4**: starting from a main-loop state in which no registered job is
FOREGROUND (and job ids are pairwise distinct), each of the two operations
that set a job FOREGROUND — the spawner's foreground branch and the `fg`
builtin — makes exactly one job FOREGROUND, keeps at most one job
FOREGROUND at every observable instant of its wait loop, and leaves no
FOREGROUND job when it returns to the main loop; and the status monitor
(`handle_child_status`) never increases the number of FOREGROUND jobs, so no
operation can make a second job FOREGROUND while one holds the status. -/
theorem at_most_one_foreground (curTty : Int) (jobs : List Job)
    (g : MonitorState) (events : List (Int × ChildEvent))
    (hnd : (jobs.map Job.jid).Nodup) (hzero : fgCount jobs = 0) :
    (∀ j : Job, j.jid ∉ jobs.map Job.jid →
      fgCount (jobs ++ [{ j with status := .FOREGROUND }]) = 1 ∧
      (∀ s ∈ spawnForegroundStates curTty j events jobs g, fgCount s ≤ 1) ∧
      (∀ res g', spawnForeground curTty j events jobs g = some (res, g') →
        fgCount res = 0)) ∧
    (∀ (killpgOk : Bool) (arg : Int),
      (∀ s ∈ fgCmdStates curTty killpgOk arg events jobs g, fgCount s ≤ 1) ∧
      (∀ res g', fgCmd curTty killpgOk arg events jobs g = some (res, g') →
        fgCount res = 0)) ∧
    (∀ (pid : Int) (ev : ChildEvent) (jobs' : List Job) (g' : MonitorState),
      handleChildStatusR curTty pid ev jobs g = some (jobs', g') →
      fgCount jobs' ≤ fgCount jobs) := by
  refine ⟨?_, ?_, ?_⟩
  · intro j hjfresh
    have hone : fgCount (jobs ++ [{ j with status := .FOREGROUND }]) = 1 := by
      rw [fgCount_append, hzero, fgCount_cons]
      simp [fgCount]
    have hnd2 :
        ((jobs ++ [{ j with status := .FOREGROUND }]).map Job.jid).Nodup := by
      rw [List.map_append, List.nodup_append]
      refine ⟨hnd, List.nodup_singleton _, ?_⟩
      intro a ha hb
      simp only [List.map_cons, List.map_nil, List.mem_singleton] at hb
      subst hb
      exact hjfresh ha
    have hofg := onlyFg_append_fresh jobs j hzero
    obtain ⟨hstates, hfin⟩ :=
      waitForJob_foreground curTty j.jid events
        (jobs ++ [{ j with status := .FOREGROUND }]) g hnd2 hofg
    refine ⟨hone, ?_, ?_⟩
    · intro s hs
      simp only [spawnForegroundStates] at hs
      exact hstates s hs
    · intro res g' h
      simp only [spawnForeground] at h
      exact hfin res g' h
  · intro killpgOk arg
    rcases hlk : jobWithJidI jobs arg with _ | j
    · constructor
      · intro s hs
        simp only [fgCmdStates, hlk, List.mem_singleton] at hs
        rw [hs]
        omega
      · intro res g' h
        simp only [fgCmd, hlk, Option.some.injEq, Prod.mk.injEq] at h
        rw [← h.1]
        exact hzero
    · by_cases hcnd :
        (j.status = .STOPPED ∨ j.status = .NEEDSTERMINAL) ∧ killpgOk = false
      · constructor
        · intro s hs
          simp only [fgCmdStates, hlk] at hs
          rw [if_pos hcnd] at hs
          simp only [List.mem_singleton] at hs
          rw [hs]
          omega
        · intro res g' h
          simp only [fgCmd, hlk] at h
          rw [if_pos hcnd] at h
          simp only [Option.some.injEq, Prod.mk.injEq] at h
          rw [← h.1]
          exact hzero
      · have hnd2 :
            ((setStatus jobs j.jid .FOREGROUND).map Job.jid).Nodup := by
          rw [setStatus_map_jid]
          exact hnd
        have hofg := onlyFg_setStatus j.jid jobs hzero
        obtain ⟨hstates, hfin⟩ :=
          waitForJob_foreground curTty j.jid events
            (setStatus jobs j.jid .FOREGROUND) g hnd2 hofg
        constructor
        · intro s hs
          simp only [fgCmdStates, hlk] at hs
          rw [if_neg hcnd] at hs
          rcases List.mem_cons.mp hs with hs' | hs'
          · rw [hs']
            omega
          · exact hstates s hs'
        · intro res g' h
          simp only [fgCmd, hlk] at h
          rw [if_neg hcnd] at h
          exact hfin res g' h
  · intro pid ev jobs' g' h
    exact handleChildStatusR_fgCount curTty pid ev jobs g jobs' g' h

/-- Witness for C4: an empty registry, one single-process foreground job,
and the trace in which its process exits. -/
theorem at_most_one_foreground_witness :
    fgCount (([] : List Job) ++
      [{ { jid := 1, status := JobStatus.BACKGROUND, alive := 1,
           termCode := -1, members := [5], savedTty := 0,
           stateSaved := false, cmds := [] : Job } with
          status := JobStatus.FOREGROUND }]) = 1 ∧
    (∀ res g', spawnForeground 0
        { jid := 1, status := JobStatus.BACKGROUND, alive := 1,
          termCode := -1, members := [5], savedTty := 0,
          stateSaved := false, cmds := [] }
        [((5 : Int), ChildEvent.exited)] []
        { zUpdateJid := -1, errorUpdateCode := -1 } = some (res, g') →
      fgCount res = 0) := by
  have h := at_most_one_foreground 0 []
    { zUpdateJid := -1, errorUpdateCode := -1 }
    [((5 : Int), ChildEvent.exited)] (by simp) (by rfl)
  have h2 := h.1
    { jid := 1, status := JobStatus.BACKGROUND, alive := 1, termCode := -1,
      members := [5], savedTty := 0, stateSaved := false, cmds := [] }
    (by simp)
  exact ⟨h2.1, h2.2.2⟩

/-- `MAXJOBS` (source line 90): `1 << 16`. -/
def MAXJOBS : Nat := 65536

/-- `get_job_from_jid` (source lines 96-103): bounds-check the id and look
it up in the `jid2job` array (modelled as a map from slot index to the job
stored there, `none` meaning NULL). -/
def getJobFromJid (table : Nat → Option Job) (jid : Nat) : Option Job :=
  if 0 < jid ∧ jid < MAXJOBS then table jid else none

/-- `add_job` (source lines 106-123): scan `jid2job[1..MAXJOBS)` for the
first NULL slot, store the job there and assign it that id; when no slot is
free the shell prints a diagnostic and aborts (`none`). -/
def addJob (table : Nat → Option Job) (j : Job) :
    Option ((Nat → Option Job) × Nat) :=
  match (List.range' 1 (MAXJOBS - 1)).find? (fun i => (table i).isNone) with
  | some i =>
    some (fun k => if k = i then some { j with jid := i } else table k, i)
  | none => none

/-- `delete_job` (source lines 129-139): invalidate the job's id and clear
its `jid2job` slot (the job's storage is freed). -/
def deleteJob (table : Nat → Option Job) (jid : Nat) : Nat → Option Job :=
  fun k => if k = jid then none else table k

lemma find?_range'_eq_some {p : Nat → Bool} :
    ∀ (n s i : Nat), (List.range' s n).find? p = some i →
      p i = true ∧ s ≤ i ∧ i < s + n ∧ ∀ k, s ≤ k → k < i → p k = false := by
  intro n
  induction n with
  | zero =>
    intro s i h
    simp [List.range'] at h
  | succ m ih =>
    intro s i h
    simp only [List.range'] at h
    by_cases hp : p s = true
    · rw [List.find?_cons_of_pos _ hp] at h
      simp only [Option.some.injEq] at h
      subst h
      refine ⟨hp, Nat.le_refl s, by omega, ?_⟩
      intro k hk1 hk2
      omega
    · rw [List.find?_cons_of_neg _ hp] at h
      obtain ⟨h1, h2, h3, h4⟩ := ih (s + 1) i h
      refine ⟨h1, by omega, by omega, ?_⟩
      intro k hk1 hk2
      by_cases hks : k = s
      · subst hks
        simpa using hp
      · exact h4 k (by omega) hk2

lemma find?_range'_eq_none {p : Nat → Bool} (s n : Nat) :
    (List.range' s n).find? p = none ↔
      ∀ k, s ≤ k → k < s + n → p k = false := by
  rw [List.find?_eq_none]
  constructor
  · intro h k hk1 hk2
    have := h k (List.mem_range'_1.mpr ⟨hk1, hk2⟩)
    simpa using this
  · intro h k hk
    obtain ⟨hk1, hk2⟩ := List.mem_range'_1.mp hk
    simp [h k hk1 hk2]

lemma find?_range'_first {p : Nat → Bool} :
    ∀ (n s i : Nat), s ≤ i → i < s + n → p i = true →
      (∀ k, s ≤ k → k < i → p k = false) →
      (List.range' s n).find? p = some i := by
  intro n
  induction n with
  | zero =>
    intro s i h1 h2
    omega
  | succ m ih =>
    intro s i h1 h2 hp hmin
    simp only [List.range']
    by_cases hsi : i = s
    · subst hsi
      rw [List.find?_cons_of_pos _ hp]
    · have hps : p s = false := hmin s (Nat.le_refl s) (by omega)
      rw [List.find?_cons_of_neg _ (by simp [hps])]
      exact ih (s + 1) i (by omega) (by omega) hp
        (fun k hk1 hk2 => hmin k (by omega) hk2)

/-- **C6**: removing a registered job makes `get_job_from_jid` on its
identifier return not-found; the freed identifier is assignable to a new
job (and is assigned when it is the lowest free one); `add_job` always
assigns the lowest identifier not in use and installs the job under it; and
`add_job` hits its fatal abort path exactly when every identifier in the
fixed space `[1, MAXJOBS)` is in use. -/
theorem registry_remove_reuse_lowest_free (table : Nat → Option Job)
    (jid : Nat) (j : Job) (h1 : 0 < jid) (h2 : jid < MAXJOBS) :
    getJobFromJid (deleteJob table jid) jid = none ∧
    ((∀ k, 0 < k → k < jid → (deleteJob table jid k).isSome) →
      ∃ t', addJob (deleteJob table jid) j = some (t', jid)) ∧
    (∀ t' i, addJob table j = some (t', i) →
      (table i).isNone = true ∧ 0 < i ∧ i < MAXJOBS ∧
      (∀ k, 0 < k → k < i → (table k).isSome) ∧
      getJobFromJid t' i = some { j with jid := i }) ∧
    (addJob table j = none ↔
      ∀ k, 0 < k → k < MAXJOBS → (table k).isSome) := by
  have hms : 1 + (MAXJOBS - 1) = MAXJOBS := by
    simp [MAXJOBS]
  refine ⟨?_, ?_, ?_, ?_⟩
  · simp [getJobFromJid, deleteJob, h1, h2]
  · intro hocc
    have hfind : (List.range' 1 (MAXJOBS - 1)).find?
        (fun i => ((deleteJob table jid) i).isNone) = some jid := by
      apply find?_range'_first (MAXJOBS - 1) 1 jid h1 (by omega)
      · simp [deleteJob]
      · intro k hk1 hk2
        have := hocc k hk1 hk2
        rcases hdk : deleteJob table jid k with _ | v
        · rw [hdk] at this
          simp at this
        · simp
    refine ⟨fun k => if k = jid then some { j with jid := jid }
      else deleteJob table jid k, ?_⟩
    simp only [addJob, hfind]
  · intro t' i h
    simp only [addJob] at h
    rcases hfind : (List.range' 1 (MAXJOBS - 1)).find?
        (fun i => (table i).isNone) with _ | i0 <;> rw [hfind] at h
    · simp at h
    · simp only [Option.some.injEq, Prod.mk.injEq] at h
      obtain ⟨ht', hi⟩ := h
      subst hi
      obtain ⟨hp, hge, hlt, hmin⟩ := find?_range'_eq_some (MAXJOBS - 1) 1 i0 hfind
      have hp2 : (table i0).isNone = true := hp
      refine ⟨hp2, by omega, by omega, ?_, ?_⟩
      · intro k hk1 hk2
        have hf : (table k).isNone = false := hmin k hk1 hk2
        rcases htk : table k with _ | v
        · rw [htk] at hf
          simp at hf
        · simp
      · have hb : 0 < i0 ∧ i0 < MAXJOBS := ⟨by omega, by omega⟩
        rw [← ht']
        simp [getJobFromJid, hb]
  · simp only [addJob]
    rcases hfind : (List.range' 1 (MAXJOBS - 1)).find?
        (fun i => (table i).isNone) with _ | i0
    · refine iff_of_true rfl ?_
      rw [find?_range'_eq_none] at hfind
      intro k hk1 hk2
      have hf : (table k).isNone = false := hfind k hk1 (by omega)
      rcases htk : table k with _ | v
      · rw [htk] at hf
        simp at hf
      · simp
    · refine iff_of_false (fun hcontra => Option.noConfusion hcontra) ?_
      intro hall
      obtain ⟨hp, hge, hlt, _⟩ := find?_range'_eq_some (MAXJOBS - 1) 1 i0 hfind
      have hp2 : (table i0).isNone = true := hp
      have hs := hall i0 (by omega) (by omega)
      rw [Option.isNone_iff_eq_none] at hp2
      rw [hp2] at hs
      simp at hs

/-- Witness for C6: deleting slot 1 of the empty table and re-registering
reuses identifier 1. -/
theorem registry_remove_reuse_lowest_free_witness :
    getJobFromJid (deleteJob (fun _ => none) 1) 1 = none ∧
    ∃ t', addJob (deleteJob (fun _ => none) 1)
      { jid := 0, status := JobStatus.BACKGROUND, alive := 1, termCode := -1,
        members := [9], savedTty := 0, stateSaved := false, cmds := [] } =
      some (t', 1) := by
  have h := registry_remove_reuse_lowest_free (fun _ => none) 1
    { jid := 0, status := JobStatus.BACKGROUND, alive := 1, termCode := -1,
      members := [9], savedTty := 0, stateSaved := false, cmds := [] }
    (by decide) (by decide)
  exact ⟨h.1, h.2.1 (fun k hk1 hk2 => absurd hk2 (by omega))⟩

/-- What the explicit-signal form of the `kill` builtin did: the signal
`killpg` was invoked with (if any), the process group targeted, and whether
the usage error was printed. -/
structure KillResult where
  sentSignal : Option Int
  target : Int
  usageError : Bool
deriving DecidableEq, Repr

/-- The explicit-signal branch of the `kill` builtin (source lines
772-801), for a job that was found and with `killpg` succeeding:
`signal_to_send = atoi(argv[1] + 1)` is checked against the fixed list of
accepted numbers, then the if/else cascade maps it to the signal passed to
`killpg` on the job's process group; any other number prints the usage
message and sends nothing. -/
def killWithNum (signalToSend : Int) (pgid : Int) : KillResult :=
  if signalToSend = 1 ∨ signalToSend = 2 ∨ signalToSend = 3 ∨
      signalToSend = 6 ∨ signalToSend = 9 ∨ signalToSend = 15 ∨
      signalToSend = 17 ∨ signalToSend = 19 ∨ signalToSend = 23 then
    if signalToSend = 1 then ⟨some SIGHUP, pgid, false⟩
    else if signalToSend = 2 then ⟨some SIGINT, pgid, false⟩
    else if signalToSend = 3 then ⟨some SIGQUIT, pgid, false⟩
    else if signalToSend = 6 then ⟨some SIGABRT, pgid, false⟩
    else if signalToSend = 9 then ⟨some SIGKILL, pgid, false⟩
    else if signalToSend = 15 then ⟨some SIGTERM, pgid, false⟩
    else if signalToSend = 17 then ⟨some SIGSTOP, pgid, false⟩
    else if signalToSend = 19 then ⟨some SIGSTOP, pgid, false⟩
    else ⟨some SIGSTOP, pgid, false⟩
  else ⟨none, pgid, true⟩

/-- The allow-list as the spec states it (§4.4): the accepted signal
numbers. -/
def killAllowList : List Int := [1, 2, 3, 6, 9, 15, 17, 19, 23]

/-- Built from the spec's words (§4.4): the signal each accepted number
stands for — hang-up, interrupt, quit, abort, kill, terminate, and the stop
family (17, 19, 23 all denote the stop signal). -/
def killSpecSignal (n : Int) : Int :=
  if n = 1 then SIGHUP
  else if n = 2 then SIGINT
  else if n = 3 then SIGQUIT
  else if n = 6 then SIGABRT
  else if n = 9 then SIGKILL
  else if n = 15 then SIGTERM
  else SIGSTOP

/-- **C7**: the explicit signal number is accepted iff it belongs to the
allow-list {1, 2, 3, 6, 9, 15, 17, 19, 23}; an accepted number sends the
corresponding signal to the job's process group, and any other number
prints the usage error and sends no signal. -/
theorem kill_signal_allowlist (n pgid : Int) :
    ((killWithNum n pgid).sentSignal.isSome ↔ n ∈ killAllowList) ∧
    ((killWithNum n pgid).usageError = true ↔ n ∉ killAllowList) ∧
    (killWithNum n pgid).target = pgid ∧
    (killWithNum n pgid).sentSignal =
      (if n ∈ killAllowList then some (killSpecSignal n) else none) := by
  by_cases h : n ∈ killAllowList
  · have h9 : n = 1 ∨ n = 2 ∨ n = 3 ∨ n = 6 ∨ n = 9 ∨ n = 15 ∨ n = 17 ∨
        n = 19 ∨ n = 23 := by
      simpa [killAllowList] using h
    rcases h9 with rfl | rfl | rfl | rfl | rfl | rfl | rfl | rfl | rfl <;>
      simp [killWithNum, killAllowList, killSpecSignal,
        SIGHUP, SIGINT, SIGQUIT, SIGABRT, SIGKILL, SIGTERM, SIGSTOP]
  · have h9 : ¬(n = 1 ∨ n = 2 ∨ n = 3 ∨ n = 6 ∨ n = 9 ∨ n = 15 ∨ n = 17 ∨
        n = 19 ∨ n = 23) := by
      simpa [killAllowList] using h
    simp [killWithNum, h9, h]

/-- `get_status` (source lines 144-159): the human-readable status text;
the C switch's default covers TERMINATED and DONE. -/
def getStatus : JobStatus → String
  | .FOREGROUND => "Foreground"
  | .BACKGROUND => "Running"
  | .STOPPED => "Stopped"
  | .NEEDSTERMINAL => "Stopped (tty)"
  | _ => "Unknown"

/-- One entry of the `jobs` output, structurally: `print_error_message`
prints only the signal message (source lines 180-199); `print_job` prints
`[jid]  Done` for DONE jobs, and `[jid]  status  (cmdline)` otherwise
(source lines 201-217, the command line being the pipeline's argv
sequence). -/
inductive JobLine
  | errorMsg (code : Int)
  | doneLine (jid : Nat)
  | statusLine (jid : Nat) (statusText : String) (cmdline : List (List String))
deriving DecidableEq, Repr

/-- `print_job` (source lines 201-217). -/
def printJob (j : Job) : JobLine :=
  if j.status = .TERMINATED then .errorMsg j.termCode
  else if j.status = .DONE then .doneLine j.jid
  else .statusLine j.jid (getStatus j.status) j.cmds

/-- `print_all_jobs` (source lines 222-241): print every job in list
order; a job found TERMINATED or DONE is unlinked and deleted right after
its entry is printed, every other job stays registered.  Returns the
printed entries and the surviving registry. -/
def printAllJobs : List Job → List JobLine × List Job
  | [] => ([], [])
  | j :: rest =>
    let r := printAllJobs rest
    (printJob j :: r.1,
     if j.status = .TERMINATED ∨ j.status = .DONE then r.2 else j :: r.2)

/-- Counterexample for C8: a job found in DONE state is printed as
`[jid]  Done` — its entry carries no reconstructed command line (and a
TERMINATED job's entry would carry neither identifier nor command line) —
refuting the claim that the listing prints identifier, human-readable
status and command line for every job in the registry. -/
theorem jobs_listing_counterexample :
    ¬ (JobLine.statusLine 1 (getStatus JobStatus.DONE) [["sleep", "10"]] ∈
      (printAllJobs
        [{ jid := 1, status := .DONE, alive := 0, termCode := -1,
           members := [7], savedTty := 0, stateSaved := false,
           cmds := [["sleep", "10"]] }]).1) := by
  decide

/-- **C8 (amended)**: `jobs` prints exactly one entry per registered job,
in registry order: a job in a non-terminal state prints its identifier,
human-readable status and reconstructed command line; a DONE job prints
only `[jid]  Done`; a TERMINATED job prints only its termination message;
and every job found DONE or TERMINATED is removed after printing while all
others remain registered, in order. -/
theorem jobs_listing_amended (jobs : List Job) :
    (printAllJobs jobs).1 = jobs.map printJob ∧
    (printAllJobs jobs).2 = jobs.filter
      (fun j => !(j.status == JobStatus.TERMINATED ∨
        j.status == JobStatus.DONE : Bool)) ∧
    (∀ j ∈ jobs, j.status ≠ .TERMINATED → j.status ≠ .DONE →
      JobLine.statusLine j.jid (getStatus j.status) j.cmds ∈
        (printAllJobs jobs).1) ∧
    (∀ j ∈ jobs, j.status = .DONE →
      JobLine.doneLine j.jid ∈ (printAllJobs jobs).1) ∧
    (∀ j ∈ jobs, j.status = .TERMINATED →
      JobLine.errorMsg j.termCode ∈ (printAllJobs jobs).1) := by
  have hmain : (printAllJobs jobs).1 = jobs.map printJob ∧
      (printAllJobs jobs).2 = jobs.filter
        (fun j => !(j.status == JobStatus.TERMINATED ∨
          j.status == JobStatus.DONE : Bool)) := by
    induction jobs with
    | nil => exact ⟨rfl, rfl⟩
    | cons a rest ih =>
      refine ⟨?_, ?_⟩
      · simp only [printAllJobs, List.map_cons]
        rw [ih.1]
      · simp only [printAllJobs, List.filter_cons]
        by_cases h : a.status = .TERMINATED ∨ a.status = .DONE
        · rw [if_pos h, ih.2]
          have hb : (a.status == JobStatus.TERMINATED ∨
              a.status == JobStatus.DONE : Bool) = true := by
            rcases h with h | h <;> simp [h]
          rw [hb]
          simp
        · rw [if_neg h, ih.2]
          push_neg at h
          have hb : (a.status == JobStatus.TERMINATED ∨
              a.status == JobStatus.DONE : Bool) = false := by
            simp [h.1, h.2]
          rw [hb]
          simp
  refine ⟨hmain.1, hmain.2, ?_, ?_, ?_⟩
  · intro j hj hj1 hj2
    rw [hmain.1]
    have : printJob j = .statusLine j.jid (getStatus j.status) j.cmds := by
      simp [printJob, hj1, hj2]
    rw [← this]
    exact List.mem_map_of_mem printJob hj
  · intro j hj hdone
    rw [hmain.1]
    have : printJob j = .doneLine j.jid := by
      simp [printJob, hdone]
    rw [← this]
    exact List.mem_map_of_mem printJob hj
  · intro j hj hterm
    rw [hmain.1]
    have : printJob j = .errorMsg j.termCode := by
      simp [printJob, hterm]
    rw [← this]
    exact List.mem_map_of_mem printJob hj

/-- Witness for C8 (amended): one DONE job is reported as `[1]  Done` and
removed; one running background job keeps its full entry and stays. -/
theorem jobs_listing_amended_witness :
    (printAllJobs
      [{ jid := 1, status := JobStatus.DONE, alive := 0, termCode := -1,
         members := [7], savedTty := 0, stateSaved := false, cmds := [] },
       { jid := 2, status := JobStatus.BACKGROUND, alive := 1, termCode := -1,
         members := [8], savedTty := 0, stateSaved := false, cmds := [] }]).2 =
      [{ jid := 2, status := JobStatus.BACKGROUND, alive := 1, termCode := -1,
         members := [8], savedTty := 0, stateSaved := false, cmds := [] }] ∧
    JobLine.doneLine 1 ∈ (printAllJobs
      [{ jid := 1, status := JobStatus.DONE, alive := 0, termCode := -1,
         members := [7], savedTty := 0, stateSaved := false, cmds := [] },
       { jid := 2, status := JobStatus.BACKGROUND, alive := 1, termCode := -1,
         members := [8], savedTty := 0, stateSaved := false, cmds := [] }]).1 := by
  have h := jobs_listing_amended
    [{ jid := 1, status := JobStatus.DONE, alive := 0, termCode := -1,
       members := [7], savedTty := 0, stateSaved := false, cmds := [] },
     { jid := 2, status := JobStatus.BACKGROUND, alive := 1, termCode := -1,
       members := [8], savedTty := 0, stateSaved := false, cmds := [] }]
  refine ⟨?_, ?_⟩
  · rw [h.2.1]
    decide
  · exact h.2.2.2.1
      { jid := 1, status := JobStatus.DONE, alive := 0, termCode := -1,
        members := [7], savedTty := 0, stateSaved := false, cmds := [] }
      (by simp) rfl

/-- `atoi`, for the well-formed decimal arguments the theorems exercise
(C's `atoi` additionally skips leading whitespace and stops at the first
non-digit; no theorem below depends on a malformed-number argument). -/
def atoi (s : String) : Int := (s.toInt?).getD 0

/-- Outcome of the `bg` builtin.  `crash` is undefined behaviour: either
`atoi(cmd->argv[1])` applied to a missing argument (a NULL pointer), or the
`found_job->child_pid_array[0]` dereference the code performs before its
NULL check of `found_job`. -/
inductive BgOutcome
  | crash
  | alreadyBackground (arg : String)
  | continued (jid : Nat) (pgid : Int)
deriving DecidableEq, Repr

/-- The `bg` builtin (source lines 715-734): `argv[1]` is parsed with
`atoi` and looked up with `job_with_jid`; the process-group id is read from
`found_job->child_pid_array[0]` BEFORE the NULL check, so an unknown job id
dereferences NULL and the `"bg %s: No such job"` branch is dead code; a
missing argument passes NULL to `atoi`.  Otherwise the job is either
reported as already in the background, or set BACKGROUND and sent SIGCONT. -/
def bgBuiltin (jobs : List Job) (argv : List String) : BgOutcome :=
  match argv.get? 1 with
  | none => .crash
  | some a =>
    match jobWithJidI jobs (atoi a) with
    | none => .crash
    | some j =>
      if j.status = .BACKGROUND then .alreadyBackground a
      else .continued j.jid (j.members.headD 0)

/-- **C2** (failing behaviour): `bg 1` with no job 1 registered crashes the
shell — the NULL lookup result is dereferenced before the NULL check — and
`bg` with its argument missing crashes in `atoi(NULL)`, instead of the
claimed reported, non-fatal no-op.  (`fg` and `stop` do check the lookup
result before use; `kill` dereferences it with no check at all.) -/
theorem bg_user_error_crashes :
    bgBuiltin [] ["bg", "1"] = .crash ∧ bgBuiltin [] ["bg"] = .crash := by
  exact ⟨rfl, rfl⟩

/-- Who owns the controlling terminal. -/
inductive TermOwner
  | shell
  | childGroup
deriving DecidableEq, Repr

/-- The step of a pipeline stage at which process creation fails. -/
inductive StageFail
  | attrInit
  | fileActInit
  | attrSetup
  | fileActOpen
  | fileActDup
  | spawnp
deriving DecidableEq, Repr

/-- Resource, signal-mask and terminal accounting of
`iterate_over_pipeline`. -/
structure SpawnState where
  sigchldBlocked : Bool
  pipesOpen : Nat
  pipesArrayLive : Bool
  pidArrayLive : Bool
  terminalOwner : TermOwner
  jobRegistered : Bool
  errorReported : Bool
deriving DecidableEq, Repr

/-- One loop iteration of `iterate_over_pipeline` (source lines 521-630)
for one stage, given which step of that stage (if any) fails.  Every
failing setup step — `posix_spawnattr_init`, `posix_spawn_file_actions_init`,
the spawn-attribute accumulation, `addopen`, `adddup2` — does
`perror(...); return 1;` with no cleanup (source lines 535-592); the
`posix_spawnp` failure path (source lines 596-616) samples and restores the
terminal, reports, unblocks SIGCHLD, closes every pipe and frees both
arrays; a successful spawn of a foreground stage hands the terminal to the
child process group (POSIX_SPAWN_TCSETPGROUP).  Returns the new state and
whether the loop continues. -/
def runStage (bg : Bool) (failAt : Option StageFail) (s : SpawnState) :
    SpawnState × Bool :=
  match failAt with
  | some .spawnp =>
    ({ s with terminalOwner := .shell, errorReported := true,
              sigchldBlocked := false, pipesOpen := 0,
              pipesArrayLive := false, pidArrayLive := false }, false)
  | some _ => ({ s with errorReported := true }, false)
  | none =>
    (if bg then s else { s with terminalOwner := .childGroup }, true)

/-- The stage loop, `n` remaining stages starting at index `i`. -/
def runStages (bg : Bool) (failsAt : Nat → Option StageFail) :
    Nat → Nat → SpawnState → SpawnState × Bool
  | _, 0, s => (s, true)
  | i, n + 1, s =>
    let r := runStage bg (failsAt i) s
    if r.2 then runStages bg failsAt (i + 1) n r.1 else (r.1, false)

/-- `iterate_over_pipeline` (source lines 476-665) as a resource machine
over a `k`-stage pipeline: SIGCHLD is blocked on entry; a builtin returns
right after running, with SIGCHLD unblocked; otherwise the
`child_pid_array` and the `k - 1` pipes are allocated, the stage loop runs,
and on full success the pipes are closed and their array freed, the job is
registered (taking ownership of the pid array), a foreground job is waited
for and the terminal handed back to the shell, and SIGCHLD is unblocked.
An early stage-failure return keeps whatever state the loop left. -/
def iterateOverPipeline (k : Nat) (bg builtin : Bool)
    (failsAt : Nat → Option StageFail) : SpawnState :=
  let s0 : SpawnState :=
    { sigchldBlocked := true, pipesOpen := 0, pipesArrayLive := false,
      pidArrayLive := false, terminalOwner := .shell,
      jobRegistered := false, errorReported := false }
  if builtin then { s0 with sigchldBlocked := false }
  else
    let s1 := { s0 with pidArrayLive := true, pipesArrayLive := true,
                        pipesOpen := k - 1 }
    let r := runStages bg failsAt 0 k s1
    if r.2 then
      let s3 := { r.1 with pipesOpen := 0, pipesArrayLive := false,
                           jobRegistered := true, pidArrayLive := false }
      let s4 := if bg then s3 else { s3 with terminalOwner := .shell }
      { s4 with sigchldBlocked := false }
    else r.1

/-- **C3** (failing behaviour): in a two-stage foreground pipeline whose
second stage fails at spawn-attribute setup, `iterate_over_pipeline`
returns with the pipe pair still open, both malloc'ed arrays still
allocated, SIGCHLD still blocked, and the terminal still owned by the first
stage's process group; only the `posix_spawnp` failure (second conjunct,
for contrast) releases every resource and restores the terminal as the
claim demands.  No job is registered and an error is reported either way. -/
theorem spawn_failure_resource_state :
    iterateOverPipeline 2 false false
        (fun i => if i = 1 then some .attrInit else none) =
      { sigchldBlocked := true, pipesOpen := 1, pipesArrayLive := true,
        pidArrayLive := true, terminalOwner := .childGroup,
        jobRegistered := false, errorReported := true } ∧
    iterateOverPipeline 2 false false
        (fun i => if i = 1 then some .spawnp else none) =
      { sigchldBlocked := false, pipesOpen := 0, pipesArrayLive := false,
        pidArrayLive := false, terminalOwner := .shell,
        jobRegistered := false, errorReported := true } := by
  exact ⟨rfl, rfl⟩

/-- **C9** (failing behaviour): SIGCHLD delivery is suppressed on entry and
resumed after a builtin, after a successful registration, and on the
`posix_spawnp`-failure return — but a file-action-setup failure returns to
the main loop with SIGCHLD still blocked, where the read loop's
`assert(!signal_is_blocked(SIGCHLD))` fires. -/
theorem sigchld_resume_on_return_paths :
    (iterateOverPipeline 1 true false
      (fun _ => some .fileActInit)).sigchldBlocked = true ∧
    (iterateOverPipeline 1 true false (fun _ => none)).sigchldBlocked = false ∧
    (iterateOverPipeline 1 true true (fun _ => none)).sigchldBlocked = false ∧
    (iterateOverPipeline 1 true false
      (fun _ => some .spawnp)).sigchldBlocked = false := by
  exact ⟨rfl, rfl, rfl, rfl⟩

end Cush
